import Mathlib

/-!
# Verification of the hoverAMR web-interface core

Shallow embedding of the two core components of the repository:

* the raster-map ingestion pipeline of `src/components/Map/MapCanvas.tsx`
  (`parsePgmFile`, `parseYamlMetadata`, `MapParser.worldToPixel`,
  `MapParser.pixelToWorld`, `createDummyMap`), and
* the pub/sub client of `src/services/websocket.ts`
  (`ROSWebSocketService`: `connect`, `handleReconnect`, `subscribe`,
  `disconnect`, the `onmessage` dispatch).

Byte sequences and JavaScript strings are modelled as `List Nat` of character
codes; JavaScript numbers are modelled exactly (as `Int`/`ℚ`), so IEEE-754
rounding on astronomically large literals is outside the model.
-/

/-! ## JavaScript string and number primitives -/

/-- Character codes treated as whitespace by JS `trim` / `\s` (the ASCII ones;
the header and metadata formats only contain ASCII). -/
def isSpaceCode (c : Nat) : Bool :=
  c = 32 || c = 9 || c = 10 || c = 13 || c = 11 || c = 12

def isDigitCode (c : Nat) : Bool := 48 ≤ c && c ≤ 57

def isHexDigitCode (c : Nat) : Bool :=
  (48 ≤ c && c ≤ 57) || (97 ≤ c && c ≤ 102) || (65 ≤ c && c ≤ 70)

/-- JS `String.prototype.trim` on a list of character codes. -/
def trimCode (s : List Nat) : List Nat :=
  ((s.dropWhile isSpaceCode).reverse.dropWhile isSpaceCode).reverse

/-- JS `str.split(/\r?\n/)`: a separator is a `\n`, optionally preceded by
`\r`; a lone `\r` is not a separator. -/
def splitRN : List Nat → List (List Nat)
  | [] => [[]]
  | c :: rest =>
    if c = 10 then [] :: splitRN rest
    else if c = 13 ∧ rest.head? = some 10 then splitRN rest
    else
      match splitRN rest with
      | [] => [[c]]
      | h :: t => (c :: h) :: t

/-- JS `str.split(/\s+/).filter(p => p.length > 0)`: the maximal runs of
non-whitespace characters. -/
def wordsWS : List Nat → List (List Nat)
  | [] => []
  | c :: rest =>
    if isSpaceCode c then wordsWS rest
    else
      match rest with
      | [] => [[c]]
      | d :: _ =>
        if isSpaceCode d then [c] :: wordsWS rest
        else
          match wordsWS rest with
          | [] => [[c]]
          | h :: t => (c :: h) :: t

/-- JS `str.split(',')` (keeps empty fields). -/
def splitComma : List Nat → List (List Nat)
  | [] => [[]]
  | 44 :: rest => [] :: splitComma rest
  | c :: rest =>
    match splitComma rest with
    | [] => [[c]]
    | h :: t => (c :: h) :: t

/-- Numeric value of a list of decimal digit codes. -/
def decVal (ds : List Nat) : Nat := ds.foldl (fun a c => 10 * a + (c - 48)) 0

/-- Numeric value of a list of hexadecimal digit codes. -/
def hexVal (ds : List Nat) : Nat :=
  ds.foldl (fun a c =>
    16 * a + (if 48 ≤ c && c ≤ 57 then c - 48
              else if 97 ≤ c then c - 87 else c - 55)) 0

/-- The unsigned part of JS `parseInt(str)` with no radix argument: an
optional `0x`/`0X` prefix switches to hexadecimal, otherwise the maximal
leading run of decimal digits is taken; `none` models `NaN`. -/
def parseIntUnsigned (s : List Nat) : Option Nat :=
  match s with
  | a :: b :: r =>
    if a = 48 ∧ (b = 120 ∨ b = 88) then
      if r.takeWhile isHexDigitCode = [] then none
      else some (hexVal (r.takeWhile isHexDigitCode))
    else
      if (a :: b :: r).takeWhile isDigitCode = [] then none
      else some (decVal ((a :: b :: r).takeWhile isDigitCode))
  | r =>
    if r.takeWhile isDigitCode = [] then none
    else some (decVal (r.takeWhile isDigitCode))

/-- JS `parseInt(str)` (radix auto-detected), `none` modelling `NaN`. -/
def parseIntJS (s : List Nat) : Option Int :=
  match s.dropWhile isSpaceCode with
  | c :: rest =>
    if c = 45 then (parseIntUnsigned rest).map (fun n => -(n : Int))
    else if c = 43 then (parseIntUnsigned rest).map (fun n => (n : Int))
    else (parseIntUnsigned (c :: rest)).map (fun n => (n : Int))
  | [] => (parseIntUnsigned []).map (fun n => (n : Int))

/-- The exact value `±mant · 10^e` as a rational (kernel-computable:
built with `mkRat` and `Nat` powers only). -/
def floatValue (neg : Bool) (mant : Nat) (e : Int) : ℚ :=
  mkRat ((if neg then -1 else 1) * (mant : Int) * ((10 ^ e.toNat : Nat) : Int))
    (10 ^ (-e).toNat)

/-- JS `parseFloat(str)`, `none` modelling `NaN`.  The special literal
`Infinity` has no rational counterpart and is not modelled. -/
def parseFloatJS (s : List Nat) : Option ℚ :=
  let s1 := s.dropWhile isSpaceCode
  let signAndRest : Bool × List Nat :=
    match s1 with
    | 45 :: r => (true, r)
    | 43 :: r => (false, r)
    | r => (false, r)
  let neg := signAndRest.1
  let s2 := signAndRest.2
  let ip := s2.takeWhile isDigitCode
  let r2 := s2.dropWhile isDigitCode
  let fpAndRest : List Nat × List Nat :=
    match r2 with
    | 46 :: r => (r.takeWhile isDigitCode, r.dropWhile isDigitCode)
    | r => ([], r)
  let fp := fpAndRest.1
  let r3 := fpAndRest.2
  if ip = [] ∧ fp = [] then none
  else
    let expPart : Int :=
      match r3 with
      | 101 :: rest =>
        match rest with
        | 45 :: r4 => (if r4.takeWhile isDigitCode = [] then 0
                       else -(decVal (r4.takeWhile isDigitCode) : Int))
        | 43 :: r4 => (if r4.takeWhile isDigitCode = [] then 0
                       else (decVal (r4.takeWhile isDigitCode) : Int))
        | r4 => (if r4.takeWhile isDigitCode = [] then 0
                 else (decVal (r4.takeWhile isDigitCode) : Int))
      | 69 :: rest =>
        match rest with
        | 45 :: r4 => (if r4.takeWhile isDigitCode = [] then 0
                       else -(decVal (r4.takeWhile isDigitCode) : Int))
        | 43 :: r4 => (if r4.takeWhile isDigitCode = [] then 0
                       else (decVal (r4.takeWhile isDigitCode) : Int))
        | r4 => (if r4.takeWhile isDigitCode = [] then 0
                 else (decVal (r4.takeWhile isDigitCode) : Int))
      | _ => 0
    some (floatValue neg (decVal (ip ++ fp)) (expPart - fp.length))

/-- Fuel-driven digit extraction (structurally recursive so that the kernel
can evaluate it; `fuel > n` is always enough). -/
def natToCodesAux : Nat → Nat → List Nat
  | 0, _ => []
  | fuel + 1, n =>
    if n < 10 then [48 + n] else natToCodesAux fuel (n / 10) ++ [48 + n % 10]

/-- Decimal digit codes of a natural number, as produced by JS
`Number.prototype.toString` on a non-negative integer. -/
def natToCodes (n : Nat) : List Nat := natToCodesAux (n + 1) n

/-- Decimal digit codes of an integer (JS `toString` on an integral number). -/
def intToCodes (i : Int) : List Nat :=
  if i < 0 then 45 :: natToCodes i.natAbs else natToCodes i.toNat

/-- JS `hay.includes(needle)` on code lists. -/
def includesJS (hay needle : List Nat) : Bool := decide (needle <:+: hay)

/-! ## The raster decoder (`parsePgmFile` in `MapCanvas.tsx`)

The browser-API fallback chain (`FileReader` failures, object-URL fetch,
canvas re-rasterisation) depends on I/O events; the embedding models the main
`reader.onload` parsing path, which is the one exercised for every readable
byte sequence. -/

structure MapData where
  width : Int
  height : Int
  resolution : ℚ
  origin : ℚ × ℚ × ℚ
  data : List Int
  deriving DecidableEq, Repr

/-- `createDummyMap`: the fixed 100×100 placeholder filled with `-1`
(`MapCanvas.tsx` lines 1364–1373).  The logged reason string is not part of
the returned value. -/
def createDummyMap : MapData :=
  { width := 100, height := 100, resolution := mkRat 1 20, origin := (0, 0, 0),
    data := List.replicate 10000 (-1) }

/-- A byte that stops the header scan: non-printable and not `\n`/`\r`/`\t`. -/
def isBinaryCode (c : Nat) : Bool := c < 32 && !(c = 10 || c = 13 || c = 9)

/-- The header-reading loop: walk at most `fuel` bytes, accumulating
characters; stop after appending the first binary byte, remembering its
relative index. -/
def headerScanAux : List Nat → Nat → List Nat × Option Nat
  | [], _ => ([], none)
  | _ :: _, 0 => ([], none)
  | c :: rest, fuel + 1 =>
    if isBinaryCode c then ([c], some 0)
    else
      let r := headerScanAux rest fuel
      (c :: r.1, r.2.map (· + 1))

/-- `headerStr`/`headerEnd` of the source: scan at most
`min(view.length, 1000)` bytes; `headerEnd` stays `0` when no binary byte is
found. -/
def headerScan (bytes : List Nat) : List Nat × Nat :=
  let r := headerScanAux bytes (min bytes.length 1000)
  (r.1, r.2.getD 0)

/-- `validLines`: split the header text on `\r?\n`, trim, keep non-empty
lines that do not start with `#`. -/
def pgmValidLines (s : List Nat) : List (List Nat) :=
  ((splitRN s).map trimCode).filter (fun l => !l.isEmpty && !(l.head? == some 35))

/-- First loop of the header-end search: advance until the bytes `P5`
(`0x50 0x35`) are found; stops (like `searchPos < view.length - 1`) when
fewer than two bytes remain. -/
def findP5Aux : List Nat → Nat → Nat
  | 80 :: 53 :: _, pos => pos
  | _ :: c :: rest, pos => findP5Aux (c :: rest) (pos + 1)
  | _, pos => pos

/-- Second loop of the header-end search: find the first newline whose
preceding (at most ten) bytes contain the decimal representation of the
parsed maxval; the result is the byte after that newline. -/
def findNlAux (bytes mstr : List Nat) : List Nat → Nat → Option Nat
  | [], _ => none
  | c :: rest, pos =>
    if c = 10 && includesJS ((bytes.take pos).drop (pos - 10)) mstr then
      some (pos + 1)
    else findNlAux bytes mstr rest (pos + 1)

/-- `actualHeaderEnd`: the two-phase search (find `P5`, then the newline
whose preceding bytes contain the maxval digits), falling back to
`headerEnd` when the search fails. -/
def pgmHeaderEnd (bytes : List Nat) (m : Int) : Nat :=
  match findNlAux bytes (intToCodes m)
      (bytes.drop (findP5Aux bytes 0)) (findP5Aux bytes 0) with
  | some e => e
  | none => (headerScan bytes).2

/-- The `parseInt` stage on the three header tokens. -/
def pgmDims (bytes wstr hstr mv : List Nat) : Option (Int × Int × Int × Nat) :=
  match parseIntJS wstr, parseIntJS hstr, parseIntJS mv with
  | some w, some h, some m => some (w, h, m, pgmHeaderEnd bytes m)
  | _, _, _ => none

/-- All header validation of `parsePgmFile` up to the start of pixel data:
size guards, header-line extraction, format marker, dimension and maxval
parsing, and the two-phase header-end search.  Returns
`(width, height, maxval, pixel-data offset)`, or `none` on the paths that
resolve with the dummy map. -/
def pgmHeader (bytes : List Nat) : Option (Int × Int × Int × Nat) :=
  if bytes.length = 0 then none
  else if bytes.length < 20 then none
  else
    match pgmValidLines (headerScan bytes).1 with
    | fmt :: dims :: mv :: _ =>
      if fmt ≠ [80, 53] then none
      else
        match wordsWS dims with
        | [wstr, hstr] => pgmDims bytes wstr hstr mv
        | _ => none
    | _ => none

/-- The pixel-copy loop: an array of `expected` cells initialised to `255`,
with `payload[i]` written at every `i < min(payload.length, expected)`. -/
def buildData (payload : List Nat) (expected : Nat) : List Int :=
  (payload.take expected).map (fun c => Int.ofNat c) ++
    List.replicate (expected - payload.length) 255

/-- `parsePgmFile`'s `onload` body: every guard failure resolves with the
dummy map; a negative cell count (`new Array` of a negative length) and a
cell count at or above `2^32` (`Array` length limit) throw a `RangeError`
caught by the surrounding `try`, which also resolves with the dummy map. -/
def parsePgmCore (bytes : List Nat) : MapData :=
  match pgmHeader bytes with
  | none => createDummyMap
  | some (w, h, _, e) =>
    if w * h < 0 then createDummyMap
    else if 4294967295 < w * h then createDummyMap
    else
      { width := w, height := h, resolution := mkRat 1 20, origin := (0, 0, 0),
        data := buildData (bytes.drop e) (w * h).toNat }

/-! ## Coordinate transforms (`MapParser` in `MapCanvas.tsx`) -/

/-- `MapParser.worldToPixel` (source lines 1041–1047). -/
def worldToPixel (worldX worldY : ℚ) (mapData : MapData) : Int × Int :=
  (⌊(worldX - mapData.origin.1) / mapData.resolution⌋,
   ⌊(mapData.height : ℚ) - (worldY - mapData.origin.2.1) / mapData.resolution⌋)

/-- `MapParser.pixelToWorld` (source lines 1049–1054). -/
def pixelToWorld (pixelX pixelY : ℚ) (mapData : MapData) : ℚ × ℚ :=
  (mapData.origin.1 + pixelX * mapData.resolution,
   mapData.origin.2.1 + ((mapData.height : ℚ) - pixelY) * mapData.resolution)

/-- The transform the spec's words prescribe:
`wx = origin.x + px*resolution`, `wy = origin.y + (height - py)*resolution`. -/
def pixelToWorldSpec (px py : ℚ) (m : MapData) : ℚ × ℚ :=
  (m.origin.1 + px * m.resolution,
   m.origin.2.1 + ((m.height : ℚ) - py) * m.resolution)

/-- The transform the spec's words prescribe:
`px = floor((wx - origin.x)/resolution)`,
`py = floor(height - (wy - origin.y)/resolution)`. -/
def worldToPixelSpec (wx wy : ℚ) (m : MapData) : Int × Int :=
  (⌊(wx - m.origin.1) / m.resolution⌋,
   ⌊(m.height : ℚ) - (wy - m.origin.2.1) / m.resolution⌋)

/-! ## The metadata decoder (`parseYamlMetadata` in `MapCanvas.tsx`) -/

structure YamlMeta where
  resolution : Option ℚ
  origin : Option (ℚ × ℚ × ℚ)
  deriving DecidableEq, Repr

def emptyYamlMeta : YamlMeta := ⟨none, none⟩

/-- Character codes of a string literal. -/
def strCodes (s : String) : List Nat := s.toList.map Char.toNat

/-- The lazy tail of the regex `/\[(.*?)\]/` after an opening bracket: the
shortest run up to a `]`; `.` matches neither `\n` nor `\r`, so a line
terminator before the `]` makes the attempt fail. -/
def innerTry : List Nat → Option (List Nat)
  | [] => none
  | 93 :: _ => some []
  | 13 :: _ => none
  | 10 :: _ => none
  | c :: rest => (innerTry rest).map (c :: ·)

/-- First match group of `value.match(/\[(.*?)\]/)`: the regex engine tries
each `[` from the left and succeeds at the first one followed by a `]` with
no line terminator in between. -/
def bracketInner : List Nat → Option (List Nat)
  | [] => none
  | 91 :: rest =>
    (match innerTry rest with
     | some inner => some inner
     | none => bracketInner rest)
  | _ :: rest => bracketInner rest

/-- The `coords` array computed for an `origin` value: bracketed
`[a, b, c]` when the value contains both brackets, bare comma-separated
`a, b, c` when it contains a comma, empty otherwise. -/
def originCoords (value : List Nat) : List (Option ℚ) :=
  if 91 ∈ value ∧ 93 ∈ value then
    match bracketInner value with
    | some inner => (splitComma inner).map (fun s => parseFloatJS (trimCode s))
    | none => []
  else if 44 ∈ value then
    (splitComma value).map (fun s => parseFloatJS (trimCode s))
  else []

/-- The key/value branch of `parseYamlMetadata`: `resolution` is set when
`parseFloat` succeeds, `origin` when at least two coordinates were extracted
and every one of them is numeric (`coords[2] || 0` supplies the third); any
other key leaves the metadata untouched. -/
def applyYamlKV (md : YamlMeta) (key value : List Nat) : YamlMeta :=
  if key = strCodes "resolution" then
    match parseFloatJS value with
    | some r => { md with resolution := some r }
    | none => md
  else if key = strCodes "origin" then
    if 2 ≤ (originCoords value).length ∧ (originCoords value).all Option.isSome then
      { md with origin := some (((originCoords value).getD 0 none).getD 0,
                                ((originCoords value).getD 1 none).getD 0,
                                ((originCoords value).getD 2 none).getD 0) }
    else md
  else md

/-- One iteration of the line loop: skip blank and `#` lines, split at the
first `:` into trimmed key and value, and apply the key/value branch. -/
def processTrimmedLine (md : YamlMeta) (trimmed : List Nat) : YamlMeta :=
  if trimmed.isEmpty then md
  else if trimmed.head? == some 35 then md
  else if 58 ∈ trimmed then
    applyYamlKV md
      (trimCode (trimmed.take (trimmed.findIdx (fun c => c == 58))))
      (trimCode (trimmed.drop (trimmed.findIdx (fun c => c == 58) + 1)))
  else md

def processYamlLine (md : YamlMeta) (line : List Nat) : YamlMeta :=
  processTrimmedLine md (trimCode line)

/-- `parseYamlMetadata`'s `onload` body: content whose trim is empty rejects
(`none`); otherwise every `\r?\n`-separated line is processed in order. -/
def parseYamlCore (content : List Nat) : Option YamlMeta :=
  if (trimCode content).isEmpty then none
  else some ((splitRN content).foldl processYamlLine emptyYamlMeta)

/-! ## The pub/sub client (`ROSWebSocketService` in `websocket.ts`)

The service is modelled as a state machine.  `ws` holds the ready state of
the socket currently referenced by `this.ws`; `pendingReconnects` counts
reconnect timers that have been scheduled by `handleReconnect` and have not
yet fired; `pendingCloseEvents` counts sockets detached by `disconnect()`
whose `close` event has not yet been delivered; `connectionFired` /
`disconnectionFired` count invocations of the respective callback lists;
handlers are identified by numeric tokens in the registry. -/

inductive ReadyState where
  | connecting
  | opened
  | closed
  deriving DecidableEq, Repr

structure WSFrame where
  op : String
  topic : String
  msgType : String
  deriving DecidableEq, Repr

structure ClientState where
  ws : Option ReadyState
  reconnectAttempts : Nat
  subscribers : List (String × Nat)
  pendingReconnects : Nat
  pendingCloseEvents : Nat
  sent : List WSFrame
  connectionFired : Nat
  disconnectionFired : Nat
  deriving DecidableEq, Repr

def initClient : ClientState := ⟨none, 0, [], 0, 0, [], 0, 0⟩

def maxReconnectAttempts : Nat := 5

/-- `Map.set`: overwrite the entry for the topic, or append a new one. -/
def setSub : List (String × Nat) → String → Nat → List (String × Nat)
  | [], t, h => [(t, h)]
  | (t', h') :: rest, t, h =>
    if t' = t then (t, h) :: rest else (t', h') :: setSub rest t h

/-- `Map.get`/`Map.has` combined: the handler registered for a topic. -/
def getSub : List (String × Nat) → String → Option Nat
  | [], _ => none
  | (t', h') :: rest, t => if t' = t then some h' else getSub rest t

/-- `handleReconnect` (source lines 58–66): while the attempt counter is
below the bound, increment it and schedule one reconnect timer. -/
def handleReconnect (c : ClientState) : ClientState :=
  if c.reconnectAttempts < maxReconnectAttempts then
    { c with reconnectAttempts := c.reconnectAttempts + 1,
             pendingReconnects := c.pendingReconnects + 1 }
  else c

/-- `connect()` up to its first suspension: `this.ws = new WebSocket(url)`
replaces the socket reference with a fresh connecting socket. -/
def connectStep (c : ClientState) : ClientState :=
  { c with ws := some ReadyState.connecting }

/-- The `onopen` handler: reset the attempt counter and run every
`connectionCallbacks` entry. -/
def openStep (c : ClientState) : ClientState :=
  { c with ws := some ReadyState.opened, reconnectAttempts := 0,
           connectionFired := c.connectionFired + 1 }

/-- The `onclose` handler: run every `disconnectionCallbacks` entry, then
`handleReconnect`.  The event may come from a socket `disconnect()` already
detached (consuming a pending close event) or from the current socket. -/
def closeStep (c : ClientState) : ClientState :=
  let c1 :=
    if 0 < c.pendingCloseEvents then
      { c with pendingCloseEvents := c.pendingCloseEvents - 1 }
    else { c with ws := some ReadyState.closed }
  handleReconnect { c1 with disconnectionFired := c1.disconnectionFired + 1 }

/-- A scheduled reconnect timer firing: its callback is
`this.connect().catch(() => {})`. -/
def timerStep (c : ClientState) : ClientState :=
  connectStep { c with pendingReconnects := c.pendingReconnects - 1 }

/-- `disconnect()` (source lines 131–136): `this.ws.close()` followed by
`this.ws = null`.  Closing a not-yet-closed socket makes its `close` event
pend; nothing touches the reconnect timers. -/
def disconnectStep (c : ClientState) : ClientState :=
  match c.ws with
  | none => c
  | some st =>
    { c with ws := none,
             pendingCloseEvents :=
               c.pendingCloseEvents + (if st = ReadyState.closed then 0 else 1) }

def subscribeFrame (topic msgType : String) : WSFrame :=
  ⟨"subscribe", topic, msgType⟩

/-- `subscribe(topic, messageType, callback)` (source lines 69–85): when the
socket is not open, log and return; otherwise record the handler and send
the subscribe envelope. -/
def subscribeStep (c : ClientState) (topic msgType : String) (handler : Nat) :
    ClientState :=
  if c.ws = some ReadyState.opened then
    { c with subscribers := setSub c.subscribers topic handler,
             sent := subscribeFrame topic msgType :: c.sent }
  else c

/-- `isConnected()`. -/
def isConnectedJS (c : ClientState) : Bool :=
  decide (c.ws = some ReadyState.opened)

/-- External events driving the client: the first and the last two are caller
API calls, the middle three are transport/timer events. -/
inductive WEvent where
  | connectCall
  | openEv
  | closeEv
  | timerFire
  | disconnectCall
  | subscribeCall (topic msgType : String) (handler : Nat)
  deriving DecidableEq, Repr

/-- An event fired by the environment rather than by a caller API call. -/
def WEvent.autonomous : WEvent → Prop
  | .openEv => True
  | .closeEv => True
  | .timerFire => True
  | _ => False

instance : DecidablePred WEvent.autonomous := by
  intro e
  cases e <;> simp [WEvent.autonomous] <;> infer_instance

/-- Guarded small-step semantics: `none` when the event cannot occur in the
given state (no such socket state, no pending timer or close event). -/
def stepE (c : ClientState) : WEvent → Option ClientState
  | .connectCall => some (connectStep c)
  | .openEv =>
    if c.ws = some ReadyState.connecting then some (openStep c) else none
  | .closeEv =>
    if 0 < c.pendingCloseEvents ∨ c.ws = some ReadyState.connecting ∨
        c.ws = some ReadyState.opened then
      some (closeStep c)
    else none
  | .timerFire =>
    if 0 < c.pendingReconnects then some (timerStep c) else none
  | .disconnectCall => some (disconnectStep c)
  | .subscribeCall t ty h => some (subscribeStep c t ty h)

/-- Run a sequence of events; `none` when some event was not enabled. -/
def runTrace (c : ClientState) : List WEvent → Option ClientState
  | [] => some c
  | e :: rest =>
    match stepE c e with
    | none => none
    | some c' => runTrace c' rest

/-- A parsed inbound frame: the `topic` field may be absent, `msg` is the
payload handed to the handler. -/
structure Inbound (α : Type) where
  topic : Option String
  msg : α
  deriving DecidableEq, Repr

/-- The `onmessage` handler (source lines 29–38): `none` stands for a raw
frame `JSON.parse` rejected (the `catch` swallows the error); the handler
for a truthy topic is invoked with the frame's `msg` field.  The returned
value records which handler was invoked with which payload; `none` means the
frame was dropped.  The function is total: no input makes it throw. -/
def dispatchMessage {α : Type} (c : ClientState) :
    Option (Inbound α) → Option (Nat × α)
  | none => none
  | some fr =>
    match fr.topic with
    | none => none
    | some t =>
      if t ≠ "" then
        match getSub c.subscribers t with
        | some h => some (h, fr.msg)
        | none => none
      else none

/-! ## The round-trip encoder and claim-level statements

`encodePgm` follows the spec's description of a correctly generated file:
format marker line, `width height` line, maxval line (maxval 255), then
exactly `width*height` payload bytes. -/

def encodePgm (w h : Nat) (cells : List Nat) : List Nat :=
  [80, 53, 10] ++ natToCodes w ++ [32] ++ natToCodes h ++
    [10, 50, 53, 53, 10] ++ cells

/-- The raster part of a decoded map (what the round-trip compares). -/
def rasterOf (m : MapData) : Int × Int × List Int := (m.width, m.height, m.data)

/-- `encodePgm` regrouped into scan segments (equal to it as a list). -/
def encodeSeg (wd hd cells : List Nat) : List Nat :=
  [80, 53] ++ 10 :: (wd ++ 32 :: (hd ++ 10 :: ([50, 53, 53] ++ 10 :: cells)))

/-- C7 as the claim states it: decoding a correctly encoded well-formed grid
returns the grid. -/
def claimC7Stated : Prop :=
  ∀ (w h : Nat) (cells : List Nat),
    0 < w → 0 < h → cells.length = w * h → (∀ c ∈ cells, c ≤ 255) →
    rasterOf (parsePgmCore (encodePgm w h cells)) =
      ((w : Int), (h : Int), cells.map (fun c => Int.ofNat c))

/-- C3 as the claim states it: for any trace, once `disconnect()` has been
called no pending reconnect timer remains, and no autonomous continuation
(socket events, timer fires) ever runs the `onConnection` callbacks again. -/
def claimC3Stated : Prop :=
  ∀ (pre post : List WEvent) (s' s : ClientState),
    (∀ e ∈ post, e.autonomous) →
    runTrace initClient (pre ++ [WEvent.disconnectCall]) = some s' →
    runTrace initClient (pre ++ WEvent.disconnectCall :: post) = some s →
    s'.pendingReconnects = 0 ∧ s.connectionFired = s'.connectionFired

/-- C5 as the claim states it: `subscribe` always records the handler, and
sends a frame exactly when connected. -/
def claimC5Stated : Prop :=
  ∀ (c : ClientState) (topic ty : String) (h : Nat),
    getSub ((subscribeStep c topic ty h).subscribers) topic = some h ∧
    ((subscribeStep c topic ty h).sent ≠ c.sent ↔ c.ws = some ReadyState.opened)

/-! ### Concrete inputs and states used by witnesses and counterexamples -/

/-- `"P5\n0 0\n255\n"` followed by nine zero bytes: 20 bytes, zero (hence
non-positive) dimension tokens. -/
def c1zeroInput : List Nat := [80, 53, 10, 48, 32, 48, 10, 50, 53, 53, 10] ++
  List.replicate 9 0

/-- `"XX\n5 5\n255\n"` followed by 25 payload bytes: wrong format marker. -/
def markerXXInput : List Nat := [88, 88, 10, 53, 32, 53, 10, 50, 53, 53, 10] ++
  (List.range 25).map (fun i => 10 + i)

/-- `"P5\na b\n255\n"` followed by 20 zero bytes: non-numeric dimensions. -/
def nanDimsInput : List Nat := [80, 53, 10, 97, 32, 98, 10, 50, 53, 53, 10] ++
  List.replicate 20 0

/-- `"P5\n4 5\n255\n"` followed by only 15 payload bytes (5 short of 4·5). -/
def shortPayloadInput : List Nat := [80, 53, 10, 52, 32, 53, 10, 50, 53, 53, 10] ++
  (List.range 15).map (fun i => 100 + i)

/-- `"P5\n100000 100000\n255\n"` with no payload: the header parses, but the
declared cell count 10^10 exceeds the JS array-length limit 2^32 − 1. -/
def hugeDimsInput : List Nat :=
  [80, 53, 10, 49, 48, 48, 48, 48, 48, 32, 49, 48, 48, 48, 48, 48, 10,
   50, 53, 53, 10]

/-- The map configuration of the claim's concrete example:
width 10, height 10, resolution 0.05, origin (−1, −1, 0). -/
def demoC2Map : MapData := ⟨10, 10, mkRat 1 20, (-1, -1, 0), []⟩

/-- A freshly opened client. -/
def connClient : ClientState := ⟨some ReadyState.opened, 0, [], 0, 0, [], 0, 0⟩

/-- An opened client with handlers registered under `""` and `"x"`. -/
def c10Client : ClientState :=
  ⟨some ReadyState.opened, 0, [("", 7), ("x", 9)], 0, 0, [], 0, 0⟩

/-- A disconnected client with one reconnect timer pending. -/
def c3PendingClient : ClientState := ⟨none, 1, [], 1, 0, [], 0, 1⟩

/-- An unexpected close followed by `maxReconnectAttempts` failed reconnect
attempts (each timer firing opens a connection attempt that closes again). -/
def c6FailTrace : List WEvent :=
  [WEvent.connectCall, WEvent.closeEv] ++
  [WEvent.timerFire, WEvent.closeEv] ++ [WEvent.timerFire, WEvent.closeEv] ++
  [WEvent.timerFire, WEvent.closeEv] ++ [WEvent.timerFire, WEvent.closeEv] ++
  [WEvent.timerFire, WEvent.closeEv]

/-- The client state after `c6FailTrace`. -/
def c6Final : ClientState := ⟨some ReadyState.closed, 5, [], 0, 0, [], 0, 6⟩

/-! ## Helper lemmas -/

theorem getSub_setSub (l : List (String × Nat)) (t : String) (h : Nat) :
    getSub (setSub l t h) t = some h := by
  induction l with
  | nil => simp [setSub, getSub]
  | cons p rest ih =>
    obtain ⟨t', h'⟩ := p
    by_cases ht : t' = t
    · simp [setSub, getSub, ht]
    · simp [setSub, getSub, ht, ih]

theorem subscribeStep_ws (c : ClientState) (t ty : String) (h : Nat) :
    (subscribeStep c t ty h).ws = c.ws := by
  unfold subscribeStep
  split <;> rfl

theorem subscribeStep_subscribers (c : ClientState) (t ty : String) (h : Nat)
    (hw : c.ws = some ReadyState.opened) :
    (subscribeStep c t ty h).subscribers = setSub c.subscribers t h := by
  unfold subscribeStep
  rw [if_pos hw]

/-! ## Claims -/

/-- C2: `pixelToWorld(px, py)` returns exactly
`(origin.x + px*resolution, origin.y + (height - py)*resolution)`, and
`worldToPixel(wx, wy)` returns exactly
`(floor((wx - origin.x)/resolution), floor(height - (wy - origin.y)/resolution))`;
with width=10, height=10, resolution=0.05, origin=(−1,−1,0),
`pixelToWorld(0, 10) = (−1, −1)`. -/
theorem claim_C2 :
    (∀ (m : MapData) (px py : ℚ), pixelToWorld px py m = pixelToWorldSpec px py m) ∧
    (∀ (m : MapData) (wx wy : ℚ), worldToPixel wx wy m = worldToPixelSpec wx wy m) ∧
    pixelToWorld 0 10 demoC2Map = (-1, -1) := by
  refine ⟨fun m px py => rfl, fun m wx wy => rfl, ?_⟩
  show ((-1 : ℚ) + 0 * mkRat 1 20, (-1 : ℚ) + (((10 : Int) : ℚ) - 10) * mkRat 1 20)
    = (-1, -1)
  norm_num

/-- C6: each failed reconnect schedules the next attempt only while the
counter is below `maxReconnectAttempts`; after an unexpected close followed
by five failed reconnects the client is not connected, no timer is pending,
a timer event is no longer enabled, and a further close schedules nothing. -/
theorem claim_C6 :
    (∀ c : ClientState,
      (handleReconnect c).pendingReconnects =
        c.pendingReconnects +
          (if c.reconnectAttempts < maxReconnectAttempts then 1 else 0) ∧
      (handleReconnect c).reconnectAttempts =
        (if c.reconnectAttempts < maxReconnectAttempts then
          c.reconnectAttempts + 1 else c.reconnectAttempts)) ∧
    runTrace initClient c6FailTrace = some c6Final ∧
    c6Final.reconnectAttempts = maxReconnectAttempts ∧
    c6Final.pendingReconnects = 0 ∧
    isConnectedJS c6Final = false ∧
    stepE c6Final WEvent.timerFire = none ∧
    handleReconnect c6Final = c6Final := by
  refine ⟨fun c => ?_, by decide, by decide, by decide, by decide, by decide, by decide⟩
  unfold handleReconnect
  split <;> simp

/-- C3 fails on the code: `disconnect()` does not cancel pending reconnect
timers.  After an unexpected close scheduled a reconnect, calling
`disconnect()` leaves the timer pending, and its firing plus a socket open
runs the `onConnection` callbacks after the disconnect. -/
theorem claim_C3_cex : ¬claimC3Stated := by
  intro hcl
  have h := hcl [WEvent.connectCall, WEvent.closeEv]
    [WEvent.timerFire, WEvent.openEv]
    ⟨none, 1, [], 1, 0, [], 0, 1⟩
    ⟨some ReadyState.opened, 0, [], 0, 0, [], 1, 1⟩
    (by decide) (by decide) (by decide)
  exact absurd h.1 (by decide)

/-- C3 amended: `disconnect()` clears the socket reference but cancels no
pending reconnect timer; a pending timer remains, its firing initiates a new
connection attempt, and if that attempt opens, the `onConnection` callbacks
fire after the disconnect. -/
theorem claim_C3 :
    ∀ c : ClientState,
      (disconnectStep c).pendingReconnects = c.pendingReconnects ∧
      (disconnectStep c).ws = none ∧
      (0 < c.pendingReconnects →
        ∃ c' c'', stepE (disconnectStep c) WEvent.timerFire = some c' ∧
          c'.ws = some ReadyState.connecting ∧
          stepE c' WEvent.openEv = some c'' ∧
          c''.connectionFired = c.connectionFired + 1) := by
  intro c
  have hpend : (disconnectStep c).pendingReconnects = c.pendingReconnects := by
    unfold disconnectStep
    cases c.ws <;> rfl
  have hws : (disconnectStep c).ws = none ∧
      (disconnectStep c).connectionFired = c.connectionFired := by
    unfold disconnectStep
    cases hw : c.ws with
    | none =>
      have : c.ws = none := hw
      exact ⟨this, rfl⟩
    | some st => exact ⟨rfl, rfl⟩
  refine ⟨hpend, hws.1, fun hp => ?_⟩
  refine ⟨timerStep (disconnectStep c), openStep (timerStep (disconnectStep c)),
    ?_, rfl, ?_, ?_⟩
  · show (if 0 < (disconnectStep c).pendingReconnects then
        some (timerStep (disconnectStep c)) else none) =
      some (timerStep (disconnectStep c))
    rw [if_pos (hpend ▸ hp)]
  · show (if (timerStep (disconnectStep c)).ws = some ReadyState.connecting then
        some (openStep (timerStep (disconnectStep c))) else none) =
      some (openStep (timerStep (disconnectStep c)))
    rw [if_pos (show (timerStep (disconnectStep c)).ws =
      some ReadyState.connecting from rfl)]
  · show (timerStep (disconnectStep c)).connectionFired + 1 = c.connectionFired + 1
    unfold timerStep connectStep
    simp [hws.2]

/-- Closed instance of the amended C3 at a client with one pending timer. -/
theorem claim_C3_witness :
    0 < c3PendingClient.pendingReconnects ∧
    ∃ c' c'', stepE (disconnectStep c3PendingClient) WEvent.timerFire = some c' ∧
      c'.ws = some ReadyState.connecting ∧
      stepE c' WEvent.openEv = some c'' ∧
      c''.connectionFired = c3PendingClient.connectionFired + 1 :=
  ⟨by decide, (claim_C3 c3PendingClient).2.2 (by decide)⟩

/-- C5 fails on the code: `subscribe` while not connected returns before
touching the registry, so the handler is not recorded. -/
theorem claim_C5_cex : ¬claimC5Stated := by
  intro hcl
  exact absurd (hcl initClient "a" "t" 1).1 (by decide)

/-- C5 amended: while connected, `subscribe` records/overwrites the handler
for the topic and sends a subscribe frame; while not connected it is a
complete no-op — no registration, no send, no queueing. -/
theorem claim_C5 :
    ∀ (c : ClientState) (topic ty : String) (h : Nat),
      (c.ws = some ReadyState.opened →
        (subscribeStep c topic ty h).subscribers = setSub c.subscribers topic h ∧
        getSub ((subscribeStep c topic ty h).subscribers) topic = some h ∧
        (subscribeStep c topic ty h).sent = subscribeFrame topic ty :: c.sent) ∧
      (c.ws ≠ some ReadyState.opened → subscribeStep c topic ty h = c) := by
  intro c topic ty h
  constructor
  · intro hw
    unfold subscribeStep
    rw [if_pos hw]
    exact ⟨rfl, getSub_setSub c.subscribers topic h, rfl⟩
  · intro hw
    unfold subscribeStep
    rw [if_neg hw]

/-- Closed instance of the amended C5: a connected client registers and
sends; a disconnected client is untouched. -/
theorem claim_C5_witness :
    ((subscribeStep connClient "a" "t" 7).subscribers = [("a", 7)] ∧
      getSub ((subscribeStep connClient "a" "t" 7).subscribers) "a" = some 7 ∧
      (subscribeStep connClient "a" "t" 7).sent = [subscribeFrame "a" "t"]) ∧
    subscribeStep initClient "a" "t" 7 = initClient :=
  ⟨(claim_C5 connClient "a" "t" 7).1 (by decide),
   (claim_C5 initClient "a" "t" 7).2 (by decide)⟩

/-- C8: after `subscribe("a", t, h1)` then `subscribe("a", t, h2)` while
connected, every inbound frame on topic `"a"` invokes `h2` with the frame's
`msg` and never `h1` — the registry keeps a single, last-registered handler
per topic. -/
theorem claim_C8 :
    ∀ (α : Type) (c : ClientState) (ty1 ty2 : String) (h1 h2 : Nat) (m : α),
      c.ws = some ReadyState.opened → h1 ≠ h2 →
      dispatchMessage (subscribeStep (subscribeStep c "a" ty1 h1) "a" ty2 h2)
          (some ⟨some "a", m⟩) = some (h2, m) ∧
      dispatchMessage (subscribeStep (subscribeStep c "a" ty1 h1) "a" ty2 h2)
          (some ⟨some "a", m⟩) ≠ some (h1, m) := by
  intro α c ty1 ty2 h1 h2 m hw hne
  have hw1 : (subscribeStep c "a" ty1 h1).ws = some ReadyState.opened := by
    rw [subscribeStep_ws]; exact hw
  have hreg : getSub ((subscribeStep (subscribeStep c "a" ty1 h1) "a" ty2 h2).subscribers)
      "a" = some h2 := by
    rw [subscribeStep_subscribers _ _ _ _ hw1]
    exact getSub_setSub _ "a" h2
  have hmain : dispatchMessage (subscribeStep (subscribeStep c "a" ty1 h1) "a" ty2 h2)
      (some ⟨some "a", m⟩) = some (h2, m) := by
    show (if ("a" : String) ≠ "" then
        match getSub ((subscribeStep (subscribeStep c "a" ty1 h1) "a" ty2 h2).subscribers)
          "a" with
        | some h => some (h, m)
        | none => none
      else none) = some (h2, m)
    rw [if_pos (by decide), hreg]
  refine ⟨hmain, ?_⟩
  rw [hmain]
  intro hcontra
  exact hne (congrArg Prod.fst (Option.some.inj hcontra)).symm

/-- Closed instance of C8 on a fresh connected client: after registering
handler 1 then handler 2 for `"a"`, a frame on `"a"` goes to handler 2. -/
theorem claim_C8_witness :
    connClient.ws = some ReadyState.opened ∧ (1 : Nat) ≠ 2 ∧
    dispatchMessage (subscribeStep (subscribeStep connClient "a" "t" 1) "a" "t" 2)
        (some ⟨some "a", (7 : Nat)⟩) = some (2, 7) ∧
    dispatchMessage (subscribeStep (subscribeStep connClient "a" "t" 1) "a" "t" 2)
        (some ⟨some "a", (7 : Nat)⟩) ≠ some (1, 7) :=
  ⟨rfl, by decide,
   (claim_C8 Nat connClient "t" "t" 1 2 7 rfl (by decide)).1,
   (claim_C8 Nat connClient "t" "t" 1 2 7 rfl (by decide)).2⟩

/-- C10: inbound dispatch is a total function that invokes a handler exactly
when the frame parsed, its topic is present and truthy (non-empty), and a
handler is registered for it; unparsed frames, frames without a topic,
frames with the empty-string topic (even when a handler is registered under
`""`), and frames with no registered handler are all dropped. -/
theorem claim_C10 :
    ∀ (α : Type) (c : ClientState),
      dispatchMessage c (none : Option (Inbound α)) = none ∧
      (∀ fr : Inbound α, fr.topic = none → dispatchMessage c (some fr) = none) ∧
      (∀ fr : Inbound α, fr.topic = some "" → dispatchMessage c (some fr) = none) ∧
      (∀ (fr : Inbound α) t, fr.topic = some t →
        getSub c.subscribers t = none → dispatchMessage c (some fr) = none) ∧
      (∀ (fr : Inbound α) t h, fr.topic = some t → t ≠ "" →
        getSub c.subscribers t = some h →
        dispatchMessage c (some fr) = some (h, fr.msg)) := by
  intro α c
  refine ⟨rfl, fun fr ht => ?_, fun fr ht => ?_, fun fr t ht hg => ?_,
    fun fr t h ht hne hg => ?_⟩
  · simp only [dispatchMessage]
    rw [ht]
  · simp only [dispatchMessage]
    rw [ht]
    simp
  · simp only [dispatchMessage]
    rw [ht]
    by_cases he : t = ""
    · simp [he]
    · simp only [he, ne_eq, not_false_iff, if_true, hg]
  · simp only [dispatchMessage]
    rw [ht]
    simp only [ne_eq, hne, not_false_iff, if_true, hg]

/-- Closed instance of C10 on a client with handlers under `""` and `"x"`:
parse failures, missing topics, empty topics, and unknown topics drop the
frame; a frame on `"x"` reaches handler 9. -/
theorem claim_C10_witness :
    dispatchMessage c10Client (none : Option (Inbound Nat)) = none ∧
    dispatchMessage c10Client (some ⟨none, (1 : Nat)⟩) = none ∧
    getSub c10Client.subscribers "" = some 7 ∧
    dispatchMessage c10Client (some ⟨some "", (1 : Nat)⟩) = none ∧
    dispatchMessage c10Client (some ⟨some "y", (1 : Nat)⟩) = none ∧
    dispatchMessage c10Client (some ⟨some "x", (5 : Nat)⟩) = some (9, 5) :=
  ⟨(claim_C10 Nat c10Client).1,
   (claim_C10 Nat c10Client).2.1 ⟨none, 1⟩ rfl,
   by decide,
   (claim_C10 Nat c10Client).2.2.1 ⟨some "", 1⟩ rfl,
   (claim_C10 Nat c10Client).2.2.2.1 ⟨some "y", 1⟩ "y" rfl (by decide),
   (claim_C10 Nat c10Client).2.2.2.2 ⟨some "x", 5⟩ "x" 9 rfl (by decide) (by decide)⟩

/-- C9: metadata decode recognizes exactly the keys `resolution` (parsed as
float) and `origin`; `origin` accepts bracketed `[a, b, c]` or bare
comma-separated `a, b, c` values, is set exactly when at least two
coordinates were extracted and every one is numeric (left unset otherwise),
with the third defaulting to `0` when absent; every other key — and every
blank, comment, or colon-free line — is silently ignored. -/
theorem claim_C9 :
    (∀ (md : YamlMeta) (key value : List Nat),
      key ≠ strCodes "resolution" → key ≠ strCodes "origin" →
      applyYamlKV md key value = md) ∧
    (∀ (md : YamlMeta) (line : List Nat), 58 ∉ trimCode line →
      processYamlLine md line = md) ∧
    (∀ (md : YamlMeta) (line : List Nat), (trimCode line).head? = some 35 →
      processYamlLine md line = md) ∧
    (∀ (md : YamlMeta) (value : List Nat),
      (applyYamlKV md (strCodes "origin") value).resolution = md.resolution ∧
      (applyYamlKV md (strCodes "origin") value).origin =
        (if 2 ≤ (originCoords value).length ∧
            (originCoords value).all Option.isSome then
          some (((originCoords value).getD 0 none).getD 0,
                ((originCoords value).getD 1 none).getD 0,
                ((originCoords value).getD 2 none).getD 0)
        else md.origin)) ∧
    (∀ (md : YamlMeta) (value : List Nat) (a b : ℚ),
      originCoords value = [some a, some b] →
      (applyYamlKV md (strCodes "origin") value).origin = some (a, b, 0)) ∧
    (∀ (md : YamlMeta) (value : List Nat) (r : ℚ),
      parseFloatJS value = some r →
      (applyYamlKV md (strCodes "resolution") value).resolution = some r ∧
      (applyYamlKV md (strCodes "resolution") value).origin = md.origin) ∧
    originCoords (strCodes "[1.5, -2.5, 3]") =
      [some (mkRat 3 2), some (mkRat (-5) 2), some 3] ∧
    originCoords (strCodes "1.5, -2.5") =
      [some (mkRat 3 2), some (mkRat (-5) 2)] := by
  have hkey : strCodes "origin" ≠ strCodes "resolution" := by decide
  refine ⟨?_, ?_, ?_, ?_, ?_, ?_, by decide, by decide⟩
  · intro md key value h1 h2
    unfold applyYamlKV
    rw [if_neg h1, if_neg h2]
  · intro md line h58
    unfold processYamlLine processTrimmedLine
    by_cases h1 : (trimCode line).isEmpty = true
    · rw [if_pos h1]
    · rw [if_neg h1]
      by_cases h2 : ((trimCode line).head? == some 35) = true
      · rw [if_pos h2]
      · rw [if_neg h2, if_neg h58]
  · intro md line h35
    unfold processYamlLine processTrimmedLine
    by_cases h1 : (trimCode line).isEmpty = true
    · rw [if_pos h1]
    · rw [if_neg h1, if_pos (show ((trimCode line).head? == some 35) = true by
        rw [h35]; rfl)]
  · intro md value
    unfold applyYamlKV
    rw [if_neg hkey, if_pos rfl]
    split_ifs with hc
    · exact ⟨rfl, rfl⟩
    · exact ⟨rfl, rfl⟩
  · intro md value a b hco
    unfold applyYamlKV
    rw [if_neg hkey, if_pos rfl, if_pos (by rw [hco]; refine ⟨by simp, by simp⟩)]
    rw [hco]
    rfl
  · intro md value r hr
    unfold applyYamlKV
    rw [if_pos rfl, hr]
    exact ⟨rfl, rfl⟩

/-- Closed instance of C9: an unknown key and a short origin leave the
metadata untouched; bracketed and bare origins with two numeric components
set the origin with third component `0`. -/
theorem claim_C9_witness :
    applyYamlKV emptyYamlMeta (strCodes "negate") (strCodes "0") =
      emptyYamlMeta ∧
    processYamlLine emptyYamlMeta (strCodes "# origin: [1, 2]") =
      emptyYamlMeta ∧
    (applyYamlKV emptyYamlMeta (strCodes "origin") (strCodes "1.5, -2.5")).origin =
      some (mkRat 3 2, mkRat (-5) 2, 0) ∧
    (applyYamlKV emptyYamlMeta (strCodes "resolution") (strCodes "0.05")).resolution =
      some (mkRat 1 20) :=
  ⟨claim_C9.1 emptyYamlMeta (strCodes "negate") (strCodes "0")
      (by decide) (by decide),
   claim_C9.2.2.1 emptyYamlMeta (strCodes "# origin: [1, 2]") (by decide),
   claim_C9.2.2.2.2.1 emptyYamlMeta (strCodes "1.5, -2.5") (mkRat 3 2)
      (mkRat (-5) 2) (by decide),
   (claim_C9.2.2.2.2.2.1 emptyYamlMeta (strCodes "0.05") (mkRat 1 20)
      (by decide)).1⟩

/-- C1 fails on the code as stated: the dimension/maxval guard checks only
`isNaN`, not positivity.  `"P5\n0 0\n255\n"` plus nine padding bytes has the
dimension token `"0"`, which parses as the non-positive integer `0`, yet the
decode returns an empty 0×0 grid instead of the 100×100 placeholder. -/
theorem claim_C1_cex :
    parseIntJS [48] = some 0 ∧ ¬ ((0 : Int) < 0) ∧
    (parsePgmCore c1zeroInput).width = 0 ∧
    parsePgmCore c1zeroInput ≠ createDummyMap := by
  refine ⟨by decide, by decide, by decide, fun h => ?_⟩
  exact absurd (congrArg MapData.width h) (by decide)

/-- A guard failure inside the header stage resolves with the placeholder. -/
theorem parsePgmCore_of_header_none (bs : List Nat) (h : pgmHeader bs = none) :
    parsePgmCore bs = createDummyMap := by
  unfold parsePgmCore
  rw [h]

/-- C1 amended: decode is total; it returns the fixed 100×100 placeholder
with every cell `-1` on empty input, input under the 20-byte minimum, a
format marker other than `P5`, a dimension line without exactly two tokens,
and width/height/maxval tokens that do not parse as integers at all (NaN).
Positivity is not checked: a token parsing as a non-positive integer is
accepted, zero dimensions yielding an empty grid (the placeholder is reached
for a negative cell count only through the caught `RangeError`). -/
theorem claim_C1 :
    parsePgmCore [] = createDummyMap ∧
    (∀ bs : List Nat, bs.length < 20 → parsePgmCore bs = createDummyMap) ∧
    (∀ (bs f : List Nat) (rest : List (List Nat)),
      20 ≤ bs.length → pgmValidLines (headerScan bs).1 = f :: rest →
      f ≠ [80, 53] → parsePgmCore bs = createDummyMap) ∧
    (∀ (bs d mv : List Nat) (rest : List (List Nat)),
      20 ≤ bs.length →
      pgmValidLines (headerScan bs).1 = [80, 53] :: d :: mv :: rest →
      (wordsWS d).length ≠ 2 → parsePgmCore bs = createDummyMap) ∧
    (∀ (bs d mv ws hs : List Nat) (rest : List (List Nat)),
      20 ≤ bs.length →
      pgmValidLines (headerScan bs).1 = [80, 53] :: d :: mv :: rest →
      wordsWS d = [ws, hs] →
      (parseIntJS ws = none ∨ parseIntJS hs = none ∨ parseIntJS mv = none) →
      parsePgmCore bs = createDummyMap) ∧
    (createDummyMap.width = 100 ∧ createDummyMap.height = 100 ∧
      createDummyMap.data = List.replicate 10000 (-1)) := by
  refine ⟨rfl, fun bs hlen => ?_, fun bs f rest hlen hvl hf => ?_,
    fun bs d mv rest hlen hvl hw => ?_,
    fun bs d mv ws hs rest hlen hvl hww hp => ?_, rfl, rfl, rfl⟩
  · refine parsePgmCore_of_header_none bs ?_
    unfold pgmHeader
    by_cases h0 : bs.length = 0
    · rw [if_pos h0]
    · rw [if_neg h0, if_pos hlen]
  · refine parsePgmCore_of_header_none bs ?_
    unfold pgmHeader
    rw [if_neg (by omega), if_neg (by omega), hvl]
    rcases rest with _ | ⟨d, _ | ⟨mv, rest'⟩⟩
    · rfl
    · rfl
    · show (if f ≠ [80, 53] then none else _) = none
      rw [if_pos hf]
  · refine parsePgmCore_of_header_none bs ?_
    unfold pgmHeader
    rw [if_neg (by omega), if_neg (by omega), hvl]
    show (if [80, 53] ≠ [80, 53] then none else _) = none
    rw [if_neg (by simp)]
    rcases hww : wordsWS d with _ | ⟨a, _ | ⟨b, _ | ⟨e, t⟩⟩⟩
    · rfl
    · rfl
    · exact absurd (by rw [hww]; rfl) hw
    · rfl
  · refine parsePgmCore_of_header_none bs ?_
    unfold pgmHeader
    rw [if_neg (by omega), if_neg (by omega), hvl]
    show (if [80, 53] ≠ [80, 53] then none else _) = none
    rw [if_neg (by simp), hww]
    show pgmDims bs ws hs mv = none
    unfold pgmDims
    rcases hp with hp | hp | hp <;>
      cases hws : parseIntJS ws <;> cases hhs : parseIntJS hs <;>
        cases hmv : parseIntJS mv <;>
        first
          | rfl
          | (rw [hws] at hp; simp at hp)
          | (rw [hhs] at hp; simp at hp)
          | (rw [hmv] at hp; simp at hp)

/-- Closed instances of the amended C1: a 1-byte input, a wrong `"XX"`
marker, and non-numeric dimension tokens all yield the placeholder. -/
theorem claim_C1_witness :
    parsePgmCore [80] = createDummyMap ∧
    parsePgmCore markerXXInput = createDummyMap ∧
    parsePgmCore nanDimsInput = createDummyMap :=
  ⟨claim_C1.2.1 [80] (by decide),
   claim_C1.2.2.1 markerXXInput [88, 88] [[53, 32, 53], [50, 53, 53]]
     (by decide) (by decide) (by decide),
   claim_C1.2.2.2.2.1 nanDimsInput [97, 32, 98] [50, 53, 53] [97] [98] [[0]]
     (by decide) (by decide) (by decide) (Or.inl (by decide))⟩

/-- The pixel-copy loop produces exactly `expected` cells. -/
theorem buildData_length (p : List Nat) (E : Nat) : (buildData p E).length = E := by
  simp [buildData]
  omega

/-- Cell `i` of the copy loop's result: the payload byte when available, the
`255` fill otherwise. -/
theorem buildData_getD (p : List Nat) (E i : Nat) (hi : i < E) :
    (buildData p E).getD i 0 =
      if i < p.length then Int.ofNat (p.getD i 0) else 255 := by
  rw [buildData]
  by_cases hp : i < p.length
  · have h1 : i < ((p.take E).map (fun c => Int.ofNat c)).length := by
      rw [List.length_map, List.length_take]
      omega
    rw [List.getD_append _ _ _ _ h1, List.getD_eq_getElem _ _ h1,
      List.getElem_map, List.getElem_take, if_pos hp,
      List.getD_eq_getElem p 0 hp]
  · have h1 : ((p.take E).map (fun c => Int.ofNat c)).length ≤ i := by
      rw [List.length_map, List.length_take]
      omega
    have h2 : i - ((p.take E).map (fun c => Int.ofNat c)).length <
        (List.replicate (E - p.length) (255 : Int)).length := by
      rw [List.length_replicate, List.length_map, List.length_take]
      omega
    rw [List.getD_append_right _ _ _ _ h1, if_neg hp,
      List.getD_eq_getElem _ _ h2, List.getElem_replicate]

/-- C4 counterexample: on `"P5\n100000 100000\n255\n"` the header stage
succeeds — it yields width 100000, height 100000, maxval 255 — yet the
returned grid is the 100×100 placeholder with 10000 cells, not
`width*height = 10^10` cells: `new Array(10^10)` throws `RangeError`
(10^10 exceeds 2^32 − 1) and the catch branch returns the dummy map, so the
claimed length invariant fails on an input whose header parses
successfully. -/
theorem claim_C4_cex :
    pgmHeader hugeDimsInput = some (100000, 100000, 255, 21) ∧
    parsePgmCore hugeDimsInput = createDummyMap ∧
    (parsePgmCore hugeDimsInput).data.length ≠
      ((100000 : Int) * 100000).toNat := by
  have hh : pgmHeader hugeDimsInput = some (100000, 100000, 255, 21) := by
    decide
  have hd : parsePgmCore hugeDimsInput = createDummyMap := by
    unfold parsePgmCore
    rw [hh]
    show (if (100000 : Int) * 100000 < 0 then createDummyMap
      else if 4294967295 < (100000 : Int) * 100000 then createDummyMap
      else { width := 100000, height := 100000, resolution := mkRat 1 20,
             origin := (0, 0, 0),
             data := buildData (hugeDimsInput.drop 21)
               ((100000 * 100000 : Int)).toNat } : MapData) = createDummyMap
    rw [if_neg (by norm_num), if_pos (by norm_num)]
  refine ⟨hh, hd, ?_⟩
  rw [hd]
  show (List.replicate 10000 (-1 : Int)).length ≠
    ((100000 : Int) * 100000).toNat
  rw [List.length_replicate]
  decide

/-- C4 (amended): whenever the header stage succeeds and the cell count is a
legal array length (`0 ≤ width*height ≤ 2^32 − 1`, so that `new Array` does
not throw), the returned grid has exactly `width*height` cells; cell `i`
is the `i`-th payload byte when the payload reaches that far and the `255`
fill otherwise — so a payload five bytes short still decodes, with the last
five cells equal to `255`, and payload bytes beyond `width*height` are
ignored. -/
theorem claim_C4 :
    ∀ (bs : List Nat) (w h m : Int) (e : Nat),
      pgmHeader bs = some (w, h, m, e) → 0 ≤ w * h → w * h ≤ 4294967295 →
      ((parsePgmCore bs).data.length = (w * h).toNat ∧
       (∀ i : Nat, i < (w * h).toNat →
         (parsePgmCore bs).data.getD i 0 =
           if i < (bs.drop e).length then Int.ofNat ((bs.drop e).getD i 0)
           else 255) ∧
       ((bs.drop e).length + 5 = (w * h).toNat →
         ∀ i : Nat, (bs.drop e).length ≤ i → i < (w * h).toNat →
           (parsePgmCore bs).data.getD i 0 = 255)) := by
  intro bs w h m e hh h0 h32
  have hdata : (parsePgmCore bs).data = buildData (bs.drop e) (w * h).toNat := by
    unfold parsePgmCore
    rw [hh]
    show (if w * h < 0 then createDummyMap
      else if 4294967295 < w * h then createDummyMap
      else { width := w, height := h, resolution := mkRat 1 20,
             origin := (0, 0, 0),
             data := buildData (bs.drop e) (w * h).toNat } : MapData).data =
      buildData (bs.drop e) (w * h).toNat
    rw [if_neg (by omega), if_neg (by omega)]
  refine ⟨?_, fun i hi => ?_, fun hlen i hge hi => ?_⟩
  · rw [hdata, buildData_length]
  · rw [hdata, buildData_getD _ _ _ hi]
  · rw [hdata, buildData_getD _ _ _ hi, if_neg (by omega)]

/-- Closed instance of C4 on `"P5\n4 5\n255\n"` with a 15-byte payload:
20 cells come back, cell 14 is the last payload byte, cells 15–19 are the
`255` fill. -/
theorem claim_C4_witness :
    pgmHeader shortPayloadInput = some (4, 5, 255, 11) ∧
    (parsePgmCore shortPayloadInput).data.length = 20 ∧
    (parsePgmCore shortPayloadInput).data.getD 14 0 = 114 ∧
    (parsePgmCore shortPayloadInput).data.getD 15 0 = 255 ∧
    (parsePgmCore shortPayloadInput).data.getD 19 0 = 255 :=
  ⟨by decide,
   ((claim_C4 shortPayloadInput 4 5 255 11 (by decide) (by decide)
      (by decide)).1).trans (by decide),
   (((claim_C4 shortPayloadInput 4 5 255 11 (by decide) (by decide)
      (by decide)).2.1 14 (by decide))).trans (by decide),
   ((claim_C4 shortPayloadInput 4 5 255 11 (by decide) (by decide)
      (by decide)).2.2 (by decide) 15 (by decide) (by decide)),
   ((claim_C4 shortPayloadInput 4 5 255 11 (by decide) (by decide)
      (by decide)).2.2 (by decide) 19 (by decide) (by decide))⟩

/-! ## Digit strings and `parseInt` on them (toward the round-trip claim) -/

theorem natToCodesAux_succ (f n : Nat) :
    natToCodesAux (f + 1) n =
      if n < 10 then [48 + n] else natToCodesAux f (n / 10) ++ [48 + n % 10] :=
  rfl

theorem natToCodesAux_congr (n : Nat) : ∀ f1 f2 : Nat, n < f1 → n < f2 →
    natToCodesAux f1 n = natToCodesAux f2 n := by
  induction n using Nat.strong_induction_on with
  | _ n ih =>
    intro f1 f2 h1 h2
    obtain ⟨f1', rfl⟩ : ∃ k, f1 = k + 1 := ⟨f1 - 1, by omega⟩
    obtain ⟨f2', rfl⟩ : ∃ k, f2 = k + 1 := ⟨f2 - 1, by omega⟩
    rw [natToCodesAux_succ, natToCodesAux_succ]
    by_cases h10 : n < 10
    · rw [if_pos h10, if_pos h10]
    · rw [if_neg h10, if_neg h10,
        ih (n / 10) (by omega) f1' f2' (by omega) (by omega)]

/-- The defining recurrence of the digit expansion. -/
theorem natToCodes_eq (n : Nat) : natToCodes n =
    if n < 10 then [48 + n] else natToCodes (n / 10) ++ [48 + n % 10] := by
  show natToCodesAux (n + 1) n = _
  rw [natToCodesAux_succ]
  by_cases h10 : n < 10
  · rw [if_pos h10, if_pos h10]
  · rw [if_neg h10, if_neg h10,
      natToCodesAux_congr (n / 10) n (n / 10 + 1) (by omega) (by omega)]
    rfl

theorem natToCodes_digits (n : Nat) : ∀ c ∈ natToCodes n, 48 ≤ c ∧ c ≤ 57 := by
  induction n using Nat.strong_induction_on with
  | _ n ih =>
    intro c hc
    rw [natToCodes_eq] at hc
    by_cases h10 : n < 10
    · rw [if_pos h10] at hc
      simp only [List.mem_singleton] at hc
      omega
    · rw [if_neg h10] at hc
      rcases List.mem_append.mp hc with h | h
      · exact ih (n / 10) (by omega) c h
      · simp only [List.mem_singleton] at h
        omega

theorem natToCodes_ne_nil (n : Nat) : natToCodes n ≠ [] := by
  rw [natToCodes_eq]
  by_cases h10 : n < 10
  · rw [if_pos h10]
    simp
  · rw [if_neg h10]
    simp

theorem decVal_append_digit (l : List Nat) (d : Nat) :
    decVal (l ++ [d]) = 10 * decVal l + (d - 48) := by
  unfold decVal
  rw [List.foldl_append]
  rfl

theorem decVal_natToCodes (n : Nat) : decVal (natToCodes n) = n := by
  induction n using Nat.strong_induction_on with
  | _ n ih =>
    rw [natToCodes_eq]
    by_cases h10 : n < 10
    · rw [if_pos h10]
      show 10 * 0 + (48 + n - 48) = n
      omega
    · rw [if_neg h10, decVal_append_digit, ih (n / 10) (by omega)]
      omega

theorem takeWhile_eq_self (p : Nat → Bool) (l : List Nat)
    (h : ∀ c ∈ l, p c = true) : l.takeWhile p = l :=
  List.takeWhile_eq_self_iff.mpr h

theorem dropWhile_eq_self_of_head (p : Nat → Bool) (l : List Nat)
    (h : ∀ c, l.head? = some c → p c = false) : l.dropWhile p = l := by
  cases l with
  | nil => rfl
  | cons c t =>
    rw [List.dropWhile_cons, if_neg (by rw [h c rfl]; simp)]

theorem parseIntUnsigned_digits (s : List Nat) (hne : s ≠ [])
    (hd : ∀ c ∈ s, isDigitCode c = true) :
    parseIntUnsigned s = some (decVal s) := by
  match s, hne with
  | [a], _ =>
    show (if [a].takeWhile isDigitCode = [] then none
      else some (decVal ([a].takeWhile isDigitCode))) = some (decVal [a])
    rw [takeWhile_eq_self _ _ hd, if_neg (by simp)]
  | a :: b :: r, _ =>
    have hb := hd b (by simp)
    show (if a = 48 ∧ (b = 120 ∨ b = 88) then _ else _) = some (decVal (a :: b :: r))
    rw [if_neg (by
      rintro ⟨-, hb'⟩
      simp only [isDigitCode, Bool.and_eq_true, decide_eq_true_eq] at hb
      omega),
      takeWhile_eq_self _ _ hd, if_neg (by simp)]

theorem parseIntJS_digits (s : List Nat) (hne : s ≠ [])
    (hd : ∀ c ∈ s, isDigitCode c = true) :
    parseIntJS s = some ((decVal s : Nat) : Int) := by
  have hspace : s.dropWhile isSpaceCode = s := by
    refine dropWhile_eq_self_of_head _ _ (fun c hc => ?_)
    have := hd c (List.mem_of_mem_head? hc)
    simp only [isDigitCode, Bool.and_eq_true, decide_eq_true_eq] at this
    simp only [isSpaceCode]
    simp only [decide_eq_true_eq, Bool.or_eq_false_iff, decide_eq_false_iff_not]
    omega
  obtain ⟨c, t, rfl⟩ := List.exists_cons_of_ne_nil hne
  have hc := hd c (by simp)
  simp only [isDigitCode, Bool.and_eq_true, decide_eq_true_eq] at hc
  unfold parseIntJS
  rw [hspace]
  show (if c = 45 then _ else if c = 43 then _
    else (parseIntUnsigned (c :: t)).map (fun n => (n : Int))) =
      some ((decVal (c :: t) : Nat) : Int)
  rw [if_neg (by omega), if_neg (by omega),
    parseIntUnsigned_digits (c :: t) (by simp) hd]
  rfl

/-- `parseInt` inverts the digit expansion. -/
theorem parseIntJS_natToCodes (n : Nat) :
    parseIntJS (natToCodes n) = some ((n : Nat) : Int) := by
  rw [parseIntJS_digits (natToCodes n) (natToCodes_ne_nil n) (fun c hc => by
    have := natToCodes_digits n c hc
    simp only [isDigitCode, Bool.and_eq_true, decide_eq_true_eq]
    omega), decVal_natToCodes]

/-! ## Line splitting, trimming and scanning over symbolic header text -/

theorem splitRN_cons (c : Nat) (rest : List Nat) (h10 : c ≠ 10) (h13 : c ≠ 13) :
    splitRN (c :: rest) =
      (match splitRN rest with
       | [] => [[c]]
       | h :: t => (c :: h) :: t) := by
  rw [splitRN.eq_def]
  show (if c = 10 then [] :: splitRN rest
    else if c = 13 ∧ rest.head? = some 10 then splitRN rest
    else
      match splitRN rest with
      | [] => [[c]]
      | h :: t => (c :: h) :: t) = _
  rw [if_neg h10, if_neg (by rintro ⟨h, -⟩; exact h13 h)]

theorem splitRN_append_sep (a rest : List Nat) (h : ∀ c ∈ a, c ≠ 10 ∧ c ≠ 13) :
    splitRN (a ++ 10 :: rest) = a :: splitRN rest := by
  induction a with
  | nil => rfl
  | cons c a' ih =>
    have hc := h c (by simp)
    rw [List.cons_append, splitRN_cons c _ hc.1 hc.2,
      ih (fun d hd => h d (by simp [hd]))]

theorem trimCode_eq_self (l : List Nat)
    (hhead : ∀ c, l.head? = some c → isSpaceCode c = false)
    (hlast : ∀ c, l.getLast? = some c → isSpaceCode c = false) :
    trimCode l = l := by
  unfold trimCode
  rw [dropWhile_eq_self_of_head _ _ hhead,
    dropWhile_eq_self_of_head _ _ (fun c hc =>
      hlast c (by rwa [List.head?_reverse] at hc)),
    List.reverse_reverse]

theorem headerScanAux_through (pre : List Nat) :
    ∀ (rest : List Nat) (fuel : Nat), (∀ c ∈ pre, isBinaryCode c = false) →
    pre.length ≤ fuel →
    ∃ t, (headerScanAux (pre ++ rest) fuel).1 = pre ++ t := by
  induction pre with
  | nil => exact fun rest fuel _ _ => ⟨(headerScanAux rest fuel).1, rfl⟩
  | cons c p' ih =>
    intro rest fuel h hf
    obtain ⟨f', rfl⟩ : ∃ k, fuel = k + 1 :=
      ⟨fuel - 1, by simp at hf; omega⟩
    obtain ⟨t, ht⟩ := ih rest f' (fun d hd => h d (by simp [hd]))
      (by simp at hf; omega)
    refine ⟨t, ?_⟩
    show (headerScanAux (c :: (p' ++ rest)) (f' + 1)).1 = (c :: p') ++ t
    unfold headerScanAux
    rw [if_neg (by rw [h c (by simp)]; simp)]
    show c :: (headerScanAux (p' ++ rest) f').1 = (c :: p') ++ t
    rw [ht]
    rfl

theorem wordsWS_nospace (l : List Nat) (hne : l ≠ [])
    (h : ∀ c ∈ l, isSpaceCode c = false) : wordsWS l = [l] := by
  induction l with
  | nil => exact absurd rfl hne
  | cons c t ih =>
    have hc := h c (by simp)
    unfold wordsWS
    rw [if_neg (by rw [hc]; simp)]
    cases t with
    | nil => rfl
    | cons d t' =>
      have hd := h d (by simp)
      show (if isSpaceCode d = true then [c] :: wordsWS (d :: t')
        else
          match wordsWS (d :: t') with
          | [] => [[c]]
          | h :: t => (c :: h) :: t) = [c :: d :: t']
      rw [if_neg (by rw [hd]; simp),
        ih (by simp) (fun e he => h e (by simp [he]))]

theorem wordsWS_pair (wd hd : List Nat) (hw : wd ≠ []) (hh : hd ≠ [])
    (h1 : ∀ c ∈ wd, isSpaceCode c = false)
    (h2 : ∀ c ∈ hd, isSpaceCode c = false) :
    wordsWS (wd ++ 32 :: hd) = [wd, hd] := by
  induction wd with
  | nil => exact absurd rfl hw
  | cons c w' ih =>
    have hc := h1 c (by simp)
    cases w' with
    | nil =>
      show wordsWS (c :: 32 :: hd) = [[c], hd]
      unfold wordsWS
      rw [if_neg (by rw [hc]; simp)]
      show (if isSpaceCode 32 = true then [c] :: wordsWS (32 :: hd)
        else
          match wordsWS (32 :: hd) with
          | [] => [[c]]
          | h :: t => (c :: h) :: t) = [[c], hd]
      rw [if_pos (by simp [isSpaceCode])]
      have h32 : wordsWS (32 :: hd) = wordsWS hd := by
        rw [wordsWS.eq_def]
        show (if isSpaceCode 32 = true then wordsWS hd
          else
            match hd with
            | [] => [[32]]
            | d :: tail =>
              if isSpaceCode d = true then [32] :: wordsWS hd
              else
                match wordsWS hd with
                | [] => [[32]]
                | h :: t => (32 :: h) :: t) = wordsWS hd
        rw [if_pos (by simp [isSpaceCode])]
      rw [h32, wordsWS_nospace hd hh h2]
    | cons c2 w'' =>
      have hc2 := h1 c2 (by simp)
      show wordsWS (c :: ((c2 :: w'') ++ 32 :: hd)) = [c :: c2 :: w'', hd]
      unfold wordsWS
      rw [if_neg (by rw [hc]; simp)]
      show (if isSpaceCode c2 = true then [c] :: wordsWS ((c2 :: w'') ++ 32 :: hd)
        else
          match wordsWS ((c2 :: w'') ++ 32 :: hd) with
          | [] => [[c]]
          | h :: t => (c :: h) :: t) = [c :: c2 :: w'', hd]
      rw [if_neg (by rw [hc2]; simp),
        ih (by simp) (fun e he => h1 e (by simp [he]))]

/-! ## Substring decomposition and the header-end search -/

theorem prefix_append_sep {m a b : List Nat} {sep : Nat} (hm : sep ∉ m)
    (h : m <+: a ++ sep :: b) : m <+: a := by
  by_cases hl : m.length ≤ a.length
  · exact List.prefix_of_prefix_length_le h (List.prefix_append a (sep :: b)) hl
  · exfalso
    apply hm
    rw [List.prefix_iff_eq_take.mp h, List.take_append_eq_append_take]
    refine List.mem_append.mpr (Or.inr ?_)
    obtain ⟨k, hk⟩ : ∃ k, m.length - a.length = k + 1 :=
      ⟨m.length - a.length - 1, by omega⟩
    rw [hk, List.take_succ_cons]
    simp

theorem infix_append_sep {m : List Nat} {sep : Nat} (hm : sep ∉ m) :
    ∀ a b : List Nat, m <:+: a ++ sep :: b → m <:+: a ∨ m <:+: b := by
  intro a
  induction a with
  | nil =>
    intro b h
    rw [List.nil_append] at h
    rcases List.infix_cons_iff.mp h with hp | hi
    · cases m with
      | nil => exact Or.inl List.nil_infix
      | cons c m' =>
        obtain ⟨t, ht⟩ := hp
        exfalso
        apply hm
        rw [List.cons_append] at ht
        injection ht with h1 _
        rw [h1]
        simp
    · exact Or.inr hi
  | cons x a' ih =>
    intro b h
    rw [List.cons_append] at h
    rcases List.infix_cons_iff.mp h with hp | hi
    · left
      have h' : m <+: (x :: a') ++ sep :: b := by rwa [List.cons_append]
      exact (prefix_append_sep hm h').isInfix
    · rcases ih b hi with h1 | h2
      · exact Or.inl (h1.trans (List.suffix_cons x a').isInfix)
      · exact Or.inr h2

theorem includesJS_true {hay m : List Nat} (h : m <:+: hay) :
    includesJS hay m = true := by
  simp [includesJS, h]

theorem includesJS_false {hay m : List Nat} (h : ¬ m <:+: hay) :
    includesJS hay m = false := by
  simp [includesJS, h]

theorem findNlAux_cons_ne (bytes m : List Nat) (c : Nat) (rest : List Nat)
    (pos : Nat) (hc : c ≠ 10) :
    findNlAux bytes m (c :: rest) pos = findNlAux bytes m rest (pos + 1) := by
  unfold findNlAux
  rw [if_neg (by simp [hc])]
  exact findNlAux.eq_def bytes m rest (pos + 1)

theorem findNlAux_skip (bytes m seg : List Nat) :
    ∀ (rest : List Nat) (pos : Nat), (∀ c ∈ seg, c ≠ 10) →
    findNlAux bytes m (seg ++ rest) pos =
      findNlAux bytes m rest (pos + seg.length) := by
  induction seg with
  | nil =>
    intro rest pos _
    simp
  | cons c s' ih =>
    intro rest pos h
    rw [List.cons_append, findNlAux_cons_ne bytes m c _ pos (h c (by simp)),
      ih rest (pos + 1) (fun d hd => h d (by simp [hd]))]
    congr 1
    simp [List.length_cons]
    omega

theorem findNlAux_nl_found (bytes m rest : List Nat) (pos : Nat)
    (h : m <:+: (bytes.take pos).drop (pos - 10)) :
    findNlAux bytes m (10 :: rest) pos = some (pos + 1) := by
  unfold findNlAux
  rw [if_pos (by simp [includesJS_true h])]

theorem findNlAux_nl_miss (bytes m rest : List Nat) (pos : Nat)
    (h : ¬ m <:+: (bytes.take pos).drop (pos - 10)) :
    findNlAux bytes m (10 :: rest) pos = findNlAux bytes m rest (pos + 1) := by
  unfold findNlAux
  rw [if_neg (by simp [includesJS_false h])]
  exact findNlAux.eq_def bytes m rest (pos + 1)

theorem mem_of_getLast?_eq {l : List Nat} {a : Nat} (h : l.getLast? = some a) :
    a ∈ l := by
  obtain ⟨hne, rfl⟩ :=
    List.mem_getLast?_eq_getLast (show a ∈ l.getLast? from h)
  exact List.getLast_mem hne

/-- The valid header lines extracted from a correctly encoded file: format
marker, dimension line, maxval line, then whatever the payload prefix
contributes. -/
theorem pgmValidLines_encode (wd hd tail : List Nat)
    (hwne : wd ≠ []) (hhne : hd ≠ [])
    (h1 : ∀ c ∈ wd, 48 ≤ c ∧ c ≤ 57) (h2 : ∀ c ∈ hd, 48 ≤ c ∧ c ≤ 57) :
    pgmValidLines ([80, 53, 10] ++ wd ++ [32] ++ hd ++ [10, 50, 53, 53, 10] ++ tail) =
      [80, 53] :: (wd ++ 32 :: hd) :: [50, 53, 53] :: pgmValidLines tail := by
  have hdims : ∀ c ∈ wd ++ 32 :: hd, c ≠ 10 ∧ c ≠ 13 := by
    intro c hc
    rcases List.mem_append.mp hc with h | h
    · have := h1 c h
      omega
    · rcases List.mem_cons.mp h with rfl | h
      · omega
      · have := h2 c h
        omega
  have hshape : ([80, 53, 10] : List Nat) ++ wd ++ [32] ++ hd ++
      [10, 50, 53, 53, 10] ++ tail =
      [80, 53] ++ 10 :: ((wd ++ 32 :: hd) ++ 10 :: ([50, 53, 53] ++ 10 :: tail)) := by
    simp
  have hsplit : splitRN ([80, 53, 10] ++ wd ++ [32] ++ hd ++
      [10, 50, 53, 53, 10] ++ tail) =
      [80, 53] :: (wd ++ 32 :: hd) :: [50, 53, 53] :: splitRN tail := by
    rw [hshape, splitRN_append_sep [80, 53] _ (by decide),
      splitRN_append_sep (wd ++ 32 :: hd) _ hdims,
      splitRN_append_sep [50, 53, 53] _ (by decide)]
  have htrimdims : trimCode (wd ++ 32 :: hd) = wd ++ 32 :: hd := by
    refine trimCode_eq_self _ (fun c hc => ?_) (fun c hc => ?_)
    · obtain ⟨cw, wt, rfl⟩ := List.exists_cons_of_ne_nil hwne
      rw [List.cons_append, List.head?_cons] at hc
      injection hc with hc
      have hcw := h1 cw (by simp)
      simp only [isSpaceCode]
      simp only [Bool.or_eq_false_iff, decide_eq_false_iff_not]
      omega
    · rw [List.getLast?_append_of_ne_nil wd (by simp),
        show (32 :: hd) = [32] ++ hd from rfl,
        List.getLast?_append_of_ne_nil [32] hhne] at hc
      have := h2 c (mem_of_getLast?_eq hc)
      simp only [isSpaceCode]
      simp only [Bool.or_eq_false_iff, decide_eq_false_iff_not]
      omega
  have hkeepdims :
      (!(wd ++ 32 :: hd).isEmpty && !((wd ++ 32 :: hd).head? == some 35)) = true := by
    obtain ⟨cw, wt, rfl⟩ := List.exists_cons_of_ne_nil hwne
    have := h1 cw (by simp)
    rw [List.cons_append, List.head?_cons]
    simp only [List.isEmpty_cons, Bool.not_false, Bool.true_and]
    rw [show ((some (cw) == some 35) : Bool) = (cw == 35) from rfl,
      beq_eq_false_iff_ne.mpr (by omega : cw ≠ 35)]
    rfl
  unfold pgmValidLines
  rw [hsplit, List.map_cons, List.map_cons, List.map_cons,
    show trimCode [80, 53] = [80, 53] by decide, htrimdims,
    show trimCode [50, 53, 53] = [50, 53, 53] by decide,
    List.filter_cons_of_pos (by decide), List.filter_cons, if_pos hkeepdims,
    List.filter_cons_of_pos (by decide)]

theorem encodePgm_eq_seg (w h : Nat) (cells : List Nat) :
    encodePgm w h cells = encodeSeg (natToCodes w) (natToCodes h) cells := by
  unfold encodePgm encodeSeg
  simp

/-- The two-phase header-end search on a correctly encoded file lands exactly
at the end of the maxval line, provided neither dimension's digit string
contains `"255"`. -/
theorem pgmHeaderEnd_encode (wd hd cells : List Nat)
    (h1 : ∀ c ∈ wd, 48 ≤ c ∧ c ≤ 57) (h2 : ∀ c ∈ hd, 48 ≤ c ∧ c ≤ 57)
    (h255w : ¬ [50, 53, 53] <:+: wd) (h255h : ¬ [50, 53, 53] <:+: hd) :
    pgmHeaderEnd (encodeSeg wd hd cells) 255 = 9 + wd.length + hd.length := by
  have hwd10 : ∀ c ∈ wd, c ≠ 10 := fun c hc => by have := h1 c hc; omega
  have hhd10 : ∀ c ∈ hd, c ≠ 10 := fun c hc => by have := h2 c hc; omega
  have hB : encodeSeg wd hd cells =
      [80, 53] ++ 10 :: (wd ++ 32 :: (hd ++ 10 :: ([50, 53, 53] ++ 10 :: cells))) :=
    rfl
  -- window facts for the three newlines hit by the search
  have hw1 : ¬ [50, 53, 53] <:+:
      ((encodeSeg wd hd cells).take 2).drop (2 - 10) := by
    rw [show ((encodeSeg wd hd cells).take 2).drop (2 - 10) = [80, 53] from rfl]
    decide
  have hw2 : ¬ [50, 53, 53] <:+:
      ((encodeSeg wd hd cells).take (4 + wd.length + hd.length)).drop
        (4 + wd.length + hd.length - 10) := by
    have hlen2 : 4 + wd.length + hd.length =
        ([80, 53, 10] ++ wd ++ [32] ++ hd).length := by
      simp
      omega
    have hpre : encodeSeg wd hd cells =
        ([80, 53, 10] ++ wd ++ [32] ++ hd) ++ (10 :: ([50, 53, 53] ++ 10 :: cells)) := by
      rw [hB]
      simp
    rw [hlen2, hpre, List.take_left]
    intro hinf
    have h3 : [50, 53, 53] <:+: [80, 53, 10] ++ wd ++ [32] ++ hd :=
      hinf.trans (List.drop_suffix _ _).isInfix
    have hsplit1 : ([80, 53, 10] : List Nat) ++ wd ++ [32] ++ hd =
        ([80, 53, 10] ++ wd) ++ 32 :: hd := by
      simp
    rcases infix_append_sep (by decide) _ _ (hsplit1 ▸ h3) with h4 | h4
    · have hsplit2 : ([80, 53, 10] : List Nat) ++ wd = [80, 53] ++ 10 :: wd := by
        simp
      rcases infix_append_sep (by decide) _ _ (hsplit2 ▸ h4) with h5 | h5
      · exact absurd h5 (by decide)
      · exact h255w h5
    · exact h255h h4
  have hw3 : [50, 53, 53] <:+:
      ((encodeSeg wd hd cells).take (8 + wd.length + hd.length)).drop
        (8 + wd.length + hd.length - 10) := by
    have hlen3 : 8 + wd.length + hd.length =
        ([80, 53, 10] ++ wd ++ [32] ++ hd ++ [10, 50, 53, 53]).length := by
      simp
      omega
    have hpre : encodeSeg wd hd cells =
        ([80, 53, 10] ++ wd ++ [32] ++ hd ++ [10, 50, 53, 53]) ++ (10 :: cells) := by
      rw [hB]
      simp
    rw [hlen3, hpre, List.take_left]
    have hx : ([80, 53, 10] : List Nat) ++ wd ++ [32] ++ hd ++ [10, 50, 53, 53] =
        ([80, 53, 10] ++ wd ++ [32] ++ hd ++ [10]) ++ [50, 53, 53] := by
      simp
    rw [hx, List.drop_append_of_le_length (by simp; omega)]
    exact (List.suffix_append _ _).isInfix
  -- pos-generalized forms of the window facts
  have hw1' : ∀ pos : Nat, pos = 2 → ¬ [50, 53, 53] <:+:
      ((encodeSeg wd hd cells).take pos).drop (pos - 10) := by
    rintro pos rfl
    exact hw1
  have hw2' : ∀ pos : Nat, pos = 4 + wd.length + hd.length → ¬ [50, 53, 53] <:+:
      ((encodeSeg wd hd cells).take pos).drop (pos - 10) := by
    rintro pos rfl
    exact hw2
  have hw3' : ∀ pos : Nat, pos = 8 + wd.length + hd.length → [50, 53, 53] <:+:
      ((encodeSeg wd hd cells).take pos).drop (pos - 10) := by
    rintro pos rfl
    exact hw3
  -- the scan itself
  have hscan : findNlAux (encodeSeg wd hd cells) [50, 53, 53]
      (encodeSeg wd hd cells) 0 = some (9 + wd.length + hd.length) := by
    nth_rewrite 2 [hB]
    rw [findNlAux_skip (encodeSeg wd hd cells) [50, 53, 53] [80, 53]
        (10 :: (wd ++ 32 :: (hd ++ 10 :: ([50, 53, 53] ++ 10 :: cells)))) 0
        (by decide),
      findNlAux_nl_miss (encodeSeg wd hd cells) [50, 53, 53]
        (wd ++ 32 :: (hd ++ 10 :: ([50, 53, 53] ++ 10 :: cells)))
        (0 + [80, 53].length)
        (hw1' (0 + [80, 53].length)
          (by simp only [List.length_cons, List.length_nil] <;> omega)),
      findNlAux_skip (encodeSeg wd hd cells) [50, 53, 53] wd
        (32 :: (hd ++ 10 :: ([50, 53, 53] ++ 10 :: cells)))
        (0 + [80, 53].length + 1) hwd10,
      findNlAux_cons_ne (encodeSeg wd hd cells) [50, 53, 53] 32
        (hd ++ 10 :: ([50, 53, 53] ++ 10 :: cells))
        (0 + [80, 53].length + 1 + wd.length) (by decide),
      findNlAux_skip (encodeSeg wd hd cells) [50, 53, 53] hd
        (10 :: ([50, 53, 53] ++ 10 :: cells))
        (0 + [80, 53].length + 1 + wd.length + 1) hhd10,
      findNlAux_nl_miss (encodeSeg wd hd cells) [50, 53, 53]
        ([50, 53, 53] ++ 10 :: cells)
        (0 + [80, 53].length + 1 + wd.length + 1 + hd.length)
        (hw2' (0 + [80, 53].length + 1 + wd.length + 1 + hd.length)
          (by simp only [List.length_cons, List.length_nil] <;> omega)),
      findNlAux_skip (encodeSeg wd hd cells) [50, 53, 53] [50, 53, 53]
        (10 :: cells)
        (0 + [80, 53].length + 1 + wd.length + 1 + hd.length + 1) (by decide),
      findNlAux_nl_found (encodeSeg wd hd cells) [50, 53, 53] cells
        (0 + [80, 53].length + 1 + wd.length + 1 + hd.length + 1 +
          [50, 53, 53].length)
        (hw3' (0 + [80, 53].length + 1 + wd.length + 1 + hd.length + 1 +
            [50, 53, 53].length)
          (by simp only [List.length_cons, List.length_nil] <;> omega))]
    exact congrArg some (by simp only [List.length_cons, List.length_nil] <;> omega)
  unfold pgmHeaderEnd
  rw [show intToCodes 255 = [50, 53, 53] by decide,
    show findP5Aux (encodeSeg wd hd cells) 0 = 0 from rfl,
    List.drop_zero, hscan]

theorem isSpaceCode_digit {c : Nat} (h : 48 ≤ c ∧ c ≤ 57) :
    isSpaceCode c = false := by
  simp only [isSpaceCode, Bool.or_eq_false_iff, decide_eq_false_iff_not]
  omega

theorem isBinaryCode_ge32 {c : Nat} (h : 32 ≤ c) : isBinaryCode c = false := by
  simp [isBinaryCode, show ¬(c < 32) from by omega]

/-- A payload of exactly the declared size copies through unchanged. -/
theorem buildData_full (p : List Nat) :
    buildData p p.length = p.map (fun c => Int.ofNat c) := by
  unfold buildData
  simp

/-- `headerStr` of a byte stream whose prefix has no binary byte extends
that prefix. -/
theorem headerScan_through (pre rest : List Nat)
    (hnb : ∀ c ∈ pre, isBinaryCode c = false)
    (hlen : pre.length ≤ min (pre ++ rest).length 1000) :
    ∃ t, (headerScan (pre ++ rest)).1 = pre ++ t := by
  unfold headerScan
  exact headerScanAux_through pre rest _ hnb hlen

/-- No byte of a correctly encoded header is binary. -/
theorem encode_header_not_binary (wd hd : List Nat)
    (h1 : ∀ c ∈ wd, 48 ≤ c ∧ c ≤ 57) (h2 : ∀ c ∈ hd, 48 ≤ c ∧ c ≤ 57) :
    ∀ c ∈ ([80, 53, 10] : List Nat) ++ wd ++ [32] ++ hd ++ [10, 50, 53, 53, 10],
      isBinaryCode c = false := by
  intro c hc
  simp only [List.append_assoc, List.mem_append, List.mem_cons,
    List.not_mem_nil, or_false] at hc
  rcases hc with (rfl | rfl | rfl) | h | rfl | h | (rfl | rfl | rfl | rfl | rfl)
  · decide
  · decide
  · decide
  · exact isBinaryCode_ge32 (by have := h1 c h; omega)
  · decide
  · exact isBinaryCode_ge32 (by have := h2 c h; omega)
  · decide
  · decide
  · decide
  · decide
  · decide

/-- The header stage of the decoder on a correctly encoded file recovers the
dimensions, the maxval, and the exact start of the payload. -/
theorem pgmHeader_encode (w h : Nat) (cells : List Nat)
    (h255w : ¬ [50, 53, 53] <:+: natToCodes w)
    (h255h : ¬ [50, 53, 53] <:+: natToCodes h)
    (hlen20 : 20 ≤ (encodePgm w h cells).length)
    (hhdr : (natToCodes w).length + (natToCodes h).length + 9 ≤ 1000) :
    pgmHeader (encodePgm w h cells) =
      some ((w : Int), (h : Int), 255,
        9 + (natToCodes w).length + (natToCodes h).length) := by
  have hdig1 := natToCodes_digits w
  have hdig2 := natToCodes_digits h
  have hne1 := natToCodes_ne_nil w
  have hne2 := natToCodes_ne_nil h
  have hform : encodePgm w h cells =
      ([80, 53, 10] ++ natToCodes w ++ [32] ++ natToCodes h ++
        [10, 50, 53, 53, 10]) ++ cells := by
    unfold encodePgm
    simp
  have hhlen : ([80, 53, 10] ++ natToCodes w ++ [32] ++ natToCodes h ++
      [10, 50, 53, 53, 10]).length =
      9 + (natToCodes w).length + (natToCodes h).length := by
    simp
    omega
  have hscan1 : ∃ t, (headerScan (encodePgm w h cells)).1 =
      ([80, 53, 10] ++ natToCodes w ++ [32] ++ natToCodes h ++
        [10, 50, 53, 53, 10]) ++ t := by
    rw [hform]
    refine headerScan_through _ cells
      (encode_header_not_binary _ _ hdig1 hdig2) ?_
    rw [hhlen]
    refine Nat.le_min.mpr ⟨?_, by omega⟩
    rw [List.length_append, hhlen]
    omega
  obtain ⟨t, ht⟩ := hscan1
  have hlines : pgmValidLines (headerScan (encodePgm w h cells)).1 =
      [80, 53] :: (natToCodes w ++ 32 :: natToCodes h) ::
        [50, 53, 53] :: pgmValidLines t := by
    rw [ht]
    exact pgmValidLines_encode _ _ t hne1 hne2 hdig1 hdig2
  unfold pgmHeader
  rw [if_neg (by omega), if_neg (by omega), hlines]
  show (if ([80, 53] : List Nat) ≠ [80, 53] then none
    else
      match wordsWS (natToCodes w ++ 32 :: natToCodes h) with
      | [wstr, hstr] => pgmDims (encodePgm w h cells) wstr hstr [50, 53, 53]
      | _ => none) = _
  rw [if_neg (by simp),
    wordsWS_pair _ _ hne1 hne2 (fun c hc => isSpaceCode_digit (hdig1 c hc))
      (fun c hc => isSpaceCode_digit (hdig2 c hc))]
  show pgmDims (encodePgm w h cells) (natToCodes w) (natToCodes h)
    [50, 53, 53] = _
  unfold pgmDims
  rw [parseIntJS_natToCodes w, parseIntJS_natToCodes h,
    show parseIntJS [50, 53, 53] = some 255 by decide]
  show some ((w : Int), (h : Int), 255,
    pgmHeaderEnd (encodePgm w h cells) 255) = _
  rw [encodePgm_eq_seg, pgmHeaderEnd_encode _ _ _ hdig1 hdig2 h255w h255h]

/-- C7 fails on the code as stated: a well-formed 1×1 grid encodes to 12
bytes, under the decoder's 20-byte minimum, so the decode returns the
100×100 placeholder rather than the grid. -/
theorem claim_C7_cex : ¬claimC7Stated := by
  intro hcl
  have h := hcl 1 1 [7] (by decide) (by decide) (by decide) (by decide)
  exact absurd (congrArg (fun t => t.1) h) (by decide)

/-- C7 amended: decoding a correctly encoded well-formed grid returns the
grid, provided the encoding clears the decoder's quirks: at least 20 bytes
in total, a header short enough for the 1000-byte scan, a cell count within
the array-length limit, and dimension digit strings not containing `"255"`
(otherwise the header-end search cuts the payload early). -/
theorem claim_C7 :
    ∀ (w h : Nat) (cells : List Nat),
      0 < w → 0 < h → cells.length = w * h → (∀ c ∈ cells, c ≤ 255) →
      ¬ [50, 53, 53] <:+: natToCodes w → ¬ [50, 53, 53] <:+: natToCodes h →
      20 ≤ (encodePgm w h cells).length →
      (natToCodes w).length + (natToCodes h).length + 9 ≤ 1000 →
      w * h ≤ 4294967295 →
      rasterOf (parsePgmCore (encodePgm w h cells)) =
        ((w : Int), (h : Int), cells.map (fun c => Int.ofNat c)) := by
  intro w h cells hw hh hlen hcell h255w h255h hlen20 hhdr h32
  have hpgm := pgmHeader_encode w h cells h255w h255h hlen20 hhdr
  have hmulnn : ¬ ((w : Int) * (h : Int) < 0) := by
    rw [← Nat.cast_mul]
    exact not_lt.mpr (Int.natCast_nonneg _)
  have hmulle : ¬ ((4294967295 : Int) < (w : Int) * (h : Int)) := by
    rw [← Nat.cast_mul]
    exact not_lt.mpr (by exact_mod_cast h32)
  have htonat : ((w : Int) * (h : Int)).toNat = w * h := by
    rw [← Nat.cast_mul, Int.toNat_natCast]
  have hform : encodePgm w h cells =
      ([80, 53, 10] ++ natToCodes w ++ [32] ++ natToCodes h ++
        [10, 50, 53, 53, 10]) ++ cells := by
    unfold encodePgm
    simp
  have hdrop : (encodePgm w h cells).drop
      (9 + (natToCodes w).length + (natToCodes h).length) = cells := by
    rw [hform, show 9 + (natToCodes w).length + (natToCodes h).length =
      ([80, 53, 10] ++ natToCodes w ++ [32] ++ natToCodes h ++
        [10, 50, 53, 53, 10]).length from by simp <;> omega]
    exact List.drop_left _ _
  unfold parsePgmCore
  rw [hpgm]
  show rasterOf (if (w : Int) * (h : Int) < 0 then createDummyMap
    else if (4294967295 : Int) < (w : Int) * (h : Int) then createDummyMap
    else { width := (w : Int), height := (h : Int), resolution := mkRat 1 20,
           origin := (0, 0, 0),
           data := buildData ((encodePgm w h cells).drop
             (9 + (natToCodes w).length + (natToCodes h).length))
             ((w : Int) * (h : Int)).toNat }) =
    ((w : Int), (h : Int), cells.map (fun c => Int.ofNat c))
  rw [if_neg hmulnn, if_neg hmulle]
  unfold rasterOf
  rw [hdrop, htonat, ← hlen, buildData_full]

/-- Closed instance of the amended C7: a 5×5 grid with 25 distinct cells
round-trips exactly. -/
theorem claim_C7_witness :
    rasterOf (parsePgmCore (encodePgm 5 5 ((List.range 25).map (fun i => 10 + i)))) =
      ((5 : Int), (5 : Int),
        ((List.range 25).map (fun i => 10 + i)).map (fun c => Int.ofNat c)) :=
  claim_C7 5 5 ((List.range 25).map (fun i => 10 + i)) (by decide) (by decide)
    (by decide) (by decide) (by decide) (by decide) (by decide) (by decide)
    (by decide)
